import Mathlib

/-!
Verification of the simon context system against its specification.

The definitions below are a shallow embedding of the Python sources:

* `src/simon/storage/jobs.py` — the durable job queue (`claim_job`,
  `complete_job`, `fail_job`, `expire_stale_leases`, `enqueue_job`). The
  PostgreSQL table `focus_jobs` is modelled as a `List Job`; `now()` is an
  explicit `Int` parameter; the SQL `UPDATE ... WHERE id = (SELECT ... ORDER BY
  priority ASC, created_at ASC LIMIT 1)` of `claim_job` is modelled by
  filtering the eligible rows and picking the first row minimal in the
  lexicographic (priority, created_at) order.
* `src/simon/ingestion/claude_code.py` — the grouping pass of
  `parse_session_into_turns` (its second pass, over the already filtered
  message records) and `_finalize_turn`. `hashlib.md5` is abstracted as a
  `hash : String -> String` parameter.
* `src/simon/context/recorder.py` — the turn-insertion loop of
  `record_session`, over the parsed turns and the set of already stored turns.
* `src/simon/context/worker.py` — the enqueue fan-out of
  `process_session_job` and the `process_turn_summary_job` handler (the
  Anthropic API call of `_llm_summarize_turn` is abstracted as a
  `llm : String -> Option String` parameter, `none` standing for any raised
  exception, and the api-key presence as a `Bool`).
* `src/simon/context/classifier.py` — `classify`, `_word_match`,
  `_detect_query_type` and `_compute_confidence`. The regular expressions of
  `_word_match` (an escaped literal pattern with word-boundary anchors) are
  implemented directly over character lists; `get_active_project` (a JSON
  file read) and `extract_file_paths_from_text` are parameters. Floats are
  modelled as rationals.
* `src/simon/context/formatter.py` — `format_context_blocks`,
  `_format_single_block`, `_estimate_tokens`. Python `sorted(...,
  reverse=True)` (a stable sort) is modelled by a stable insertion sort.
* `src/simon/context/artifact_extractor.py` — `_process_tool_use` over one
  `tool_use` block whose `input` is a string-valued dict.

Python string slicing `s[:n]`, `.strip()`, `.lower()`, `.split()` and
`.startswith()` are modelled over `List Char` (`pyTake`, `pyStrip`, `pyLower`,
`splitNl`, `pyStartsWith`); Python truthiness of an optional string is
`optTruthy`.
-/

set_option maxHeartbeats 1600000
set_option maxRecDepth 16000

/-! ## Python string helpers -/

/-- Python slicing `s[:n]`. -/
def pyTake (n : Nat) (s : String) : String := String.mk (s.toList.take n)

/-- Python slicing `s[n:]`. -/
def pyDrop (n : Nat) (s : String) : String := String.mk (s.toList.drop n)

/-- Python `s.strip()` (whitespace at both ends removed). -/
def pyStrip (s : String) : String :=
  String.mk (((s.toList.dropWhile Char.isWhitespace).reverse.dropWhile
    Char.isWhitespace).reverse)

/-- Python `s.lower()`. -/
def pyLower (s : String) : String := String.mk (s.toList.map Char.toLower)

/-- Python `s.startswith(p)`. -/
def pyStartsWith (p s : String) : Bool := p.toList.isPrefixOf s.toList

/-- Python truthiness of an optional string: `None` and the empty string are
falsy. -/
def optTruthy : Option String → Bool
  | none => false
  | some s => s != ""

/-! ## Job queue (src/simon/storage/jobs.py)

A row of the `focus_jobs` table. `created_at` and `locked_until` are
timestamps modelled as `Int`; `payload` is kept opaque as a `String`. -/

structure Job where
  id : Nat
  kind : String
  payload : String
  dedupe_key : Option String
  status : String
  priority : Int
  attempts : Nat
  max_attempts : Nat
  locked_until : Option Int
  error_message : Option String
  created_at : Int
deriving Repr, DecidableEq

/-- The WHERE clause of the claiming subquery: `status IN ('queued','retry')
AND (locked_until IS NULL OR locked_until < now())` and, when the caller gave
a non-empty `kinds` list (Python `if kinds:` treats an empty list as absent),
`kind = ANY(kinds)`. -/
def jobEligible (kinds : Option (List String)) (now : Int) (j : Job) : Bool :=
  (j.status == "queued" || j.status == "retry")
    && (match j.locked_until with
        | none => true
        | some t => decide (t < now))
    && (match kinds with
        | none => true
        | some ks => ks.isEmpty || ks.contains j.kind)

/-- Strict lexicographic order of `ORDER BY priority ASC, created_at ASC`. -/
def jobBefore (a b : Job) : Bool :=
  decide (a.priority < b.priority)
    || (a.priority == b.priority && decide (a.created_at < b.created_at))

/-- First row minimal in the `jobBefore` order (the `LIMIT 1` row). -/
def pickBest : List Job → Option Job
  | [] => none
  | j :: rest =>
    match pickBest rest with
    | none => some j
    | some b => if jobBefore b j then some b else some j

/-- The claiming UPDATE applied to the selected row: `status = 'processing',
locked_until = now() + lease_seconds, attempts = attempts + 1`. -/
def claimUpdate (lease_seconds now : Int) (j : Job) : Job :=
  { j with
    status := "processing"
    locked_until := some (now + lease_seconds)
    attempts := j.attempts + 1 }

/-- claim_job: atomically select the best eligible row, set it to
`processing` with a fresh lease and `attempts + 1`, and return it. -/
def claim_job (kinds : Option (List String)) (lease_seconds now : Int)
    (jobs : List Job) : Option Job × List Job :=
  match pickBest (jobs.filter (jobEligible kinds now)) with
  | none => (none, jobs)
  | some j =>
    let j' := claimUpdate lease_seconds now j
    (some j', jobs.map (fun k => if k.id == j.id then j' else k))

/-- complete_job: set the addressed row to `done` (no guard on its current
status). -/
def complete_job (job_id : Nat) (jobs : List Job) : List Job :=
  jobs.map (fun k => if k.id == job_id then { k with status := "done" } else k)

/-- Exponential backoff of fail_job: `min((2 ** attempts) * 30, 3600)`. -/
def backoffSeconds (attempts : Nat) : Nat := min ((2 ^ attempts) * 30) 3600

/-- fail_job: if the row exists, set it to `retry` with backoff while
`attempts < max_attempts`, otherwise to `failed`. -/
def fail_job (now : Int) (job_id : Nat) (err : String) (jobs : List Job) :
    List Job :=
  match jobs.find? (fun j => j.id == job_id) with
  | none => jobs
  | some job =>
    if job.attempts < job.max_attempts then
      jobs.map (fun k => if k.id == job_id then
        { k with
          status := "retry"
          error_message := some err
          locked_until := some (now + (backoffSeconds job.attempts : Int)) }
        else k)
    else
      jobs.map (fun k => if k.id == job_id then
        { k with status := "failed", error_message := some err } else k)

/-- expire_stale_leases: rows in `processing` whose lease is past go back to
`retry` with the lease cleared. -/
def expire_stale_leases (now : Int) (jobs : List Job) : List Job :=
  jobs.map (fun j =>
    if j.status == "processing"
        && (match j.locked_until with
            | none => false
            | some t => decide (t < now)) then
      { j with status := "retry", locked_until := none }
    else j)

/-- enqueue_job: with a truthy dedupe key, insert-on-conflict-do-nothing on
that key; otherwise a plain insert. New rows start `queued` with zero
attempts. -/
def enqueue_job (new_id : Nat) (kind payload : String)
    (dedupe_key : Option String) (priority : Int) (max_attempts : Nat)
    (created_at : Int) (jobs : List Job) : Option Job × List Job :=
  let plain : Job :=
    { id := new_id
      kind := kind
      payload := payload
      dedupe_key := none
      status := "queued"
      priority := priority
      attempts := 0
      max_attempts := max_attempts
      locked_until := none
      error_message := none
      created_at := created_at }
  match dedupe_key with
  | some dk =>
    if dk == "" then (some plain, jobs ++ [plain])
    else if jobs.any (fun j => j.dedupe_key == some dk) then (none, jobs)
    else
      let job := { plain with dedupe_key := some dk }
      (some job, jobs ++ [job])
  | none => (some plain, jobs ++ [plain])

/-! ## Transcript parser (src/simon/ingestion/claude_code.py)

A message record as the first pass of `parse_session_into_turns` collects it:
`role` and `text` from `message.content`, the tool names extracted by
`_extract_tool_names`, the model name, the record timestamp, and the raw
line. -/

structure PMessage where
  role : String
  text : String
  tool_names : List String
  model : String
  timestamp : String
  raw_line : String
deriving Repr, DecidableEq

/-- The mutable turn dict built during grouping, before `_finalize_turn`. -/
structure PendingTurn where
  user_message : String
  assistant_texts : List String
  tool_names : List String
  model_name : Option String
  started_at : String
  ended_at : String
  raw_lines : List String
deriving Repr, DecidableEq

/-- A finalized turn. `content_hash` is computed by the `hash` parameter
standing for `hashlib.md5(raw).hexdigest()`. -/
structure Turn where
  turn_number : Nat
  user_message : String
  assistant_text : String
  tool_names : List String
  model_name : Option String
  started_at : String
  ended_at : String
  raw_jsonl : String
  content_hash : String
deriving Repr, DecidableEq

/-- The turn dict opened by a `user` record. -/
def newPending (m : PMessage) : PendingTurn :=
  { user_message := m.text
    assistant_texts := []
    tool_names := []
    model_name := none
    started_at := m.timestamp
    ended_at := m.timestamp
    raw_lines := [m.raw_line] }

/-- Append a tool name unless already present (first-seen order kept). -/
def addTool (ts : List String) (t : String) : List String :=
  if ts.contains t then ts else ts ++ [t]

/-- Fold an `assistant` record into the open turn: append its text when
non-empty, merge tool names, set the model name once (first non-empty wins),
update `ended_at` when the record has a timestamp, and keep its raw line. -/
def assistantStep (cur : PendingTurn) (m : PMessage) : PendingTurn :=
  { user_message := cur.user_message
    assistant_texts :=
      if m.text != "" then cur.assistant_texts ++ [m.text]
      else cur.assistant_texts
    tool_names := m.tool_names.foldl addTool cur.tool_names
    model_name :=
      if m.model != "" && cur.model_name.isNone then some m.model
      else cur.model_name
    started_at := cur.started_at
    ended_at := if m.timestamp != "" then m.timestamp else cur.ended_at
    raw_lines := cur.raw_lines ++ [m.raw_line] }

/-- _finalize_turn: assign the 0-based index, join the collected texts and
raw lines, and compute the content hash of the joined raw lines. -/
def _finalize_turn (hash : String → String) (p : PendingTurn) (index : Nat) :
    Turn :=
  let raw := String.intercalate "\n" p.raw_lines
  { turn_number := index
    user_message := p.user_message
    assistant_text := String.intercalate "\n" p.assistant_texts
    tool_names := p.tool_names
    model_name := p.model_name
    started_at := p.started_at
    ended_at := p.ended_at
    raw_jsonl := raw
    content_hash := hash raw }

/-- Finalize the open turn onto the accumulated list when it has a truthy
user message (the `if current_turn and current_turn.get("user_message")`
guard), else drop it. -/
def finalizeMaybe (hash : String → String)
    (s : List Turn × Option PendingTurn) : List Turn :=
  match s.2 with
  | some cur =>
    if cur.user_message != "" then s.1 ++ [_finalize_turn hash cur s.1.length]
    else s.1
  | none => s.1

/-- One step of the grouping loop of `parse_session_into_turns`: a `user`
record finalizes the open turn (when it has a user message) and opens a new
one; an `assistant` record folds into the open turn, or is dropped when no
turn is open; any other role is dropped. -/
def parseStep (hash : String → String) (acc : List Turn × Option PendingTurn)
    (m : PMessage) : List Turn × Option PendingTurn :=
  if m.role == "user" then
    (finalizeMaybe hash acc, some (newPending m))
  else if m.role == "assistant" then
    match acc.2 with
    | none => acc
    | some cur => (acc.1, some (assistantStep cur m))
  else acc

/-- parse_session_into_turns, second pass: group the filtered message records
into turns and finalize the last open turn. -/
def parse_session_into_turns (hash : String → String) (msgs : List PMessage) :
    List Turn :=
  finalizeMaybe hash (msgs.foldl (parseStep hash) ([], none))

/-! ## Recorder (src/simon/context/recorder.py)

The turn-insertion loop of `record_session`: the set of content hashes of
the turns already stored under the session is computed once, each parsed
turn whose hash is in the set is skipped, the others are inserted. Returns
((turns_recorded, turns_skipped), inserted rows in order). -/

def recordTurns (existing_hashes : List String) :
    List Turn → Nat × Nat × List Turn
  | [] => (0, 0, [])
  | t :: rest =>
    let r := recordTurns existing_hashes rest
    if existing_hashes.contains t.content_hash then (r.1, r.2.1 + 1, r.2.2)
    else (r.1 + 1, r.2.1, t :: r.2.2)

/-- record_session over a parsed transcript and the turns already stored for
the session (empty for a fresh session). Returns the
(turns_recorded, turns_skipped) counts and the stored turns afterwards. -/
def record_session (turns : List Turn) (existing : List Turn) :
    (Nat × Nat) × List Turn :=
  if turns.isEmpty then ((0, 0), existing)
  else
    let hashes := existing.map Turn.content_hash
    let r := recordTurns hashes turns
    ((r.1, r.2.1), existing ++ r.2.2)

/-! ## session_process fan-out (src/simon/context/worker.py)

An enqueue_job call issued by `process_session_job`, as (kind, dedupe_key,
priority). -/

structure EnqueueReq where
  kind : String
  dedupe_key : String
  priority : Int
deriving Repr, DecidableEq

/-- The three child jobs enqueued per turn still lacking an assistant
summary. -/
def turnChildJobs (turn_id : String) : List EnqueueReq :=
  [ { kind := "turn_summary", dedupe_key := "turn_summary:" ++ turn_id,
      priority := 15 },
    { kind := "entity_extract", dedupe_key := "entity_extract:" ++ turn_id,
      priority := 20 },
    { kind := "artifact_extract", dedupe_key := "artifact_extract:" ++ turn_id,
      priority := 18 } ]

/-- The enqueue calls a successful `process_session_job` run issues after
recording: gated on `turns_recorded > 0`, three child jobs per turn of the
session still lacking `assistant_summary` (given here by their ids), then
one session_summary job. -/
def process_session_enqueues (turns_recorded : Nat) (turn_ids : List String)
    (session_id : String) : List EnqueueReq :=
  if 0 < turns_recorded then
    (turn_ids.foldr (fun tid acc => turnChildJobs tid ++ acc) [])
      ++ [ { kind := "session_summary",
             dedupe_key := "session_summary:" ++ session_id,
             priority := 25 } ]
  else []

/-! ## turn_summary handler (src/simon/context/worker.py) -/

/-- The columns of an agent_turns row the turn_summary handler reads and
writes. -/
structure AgentTurnRow where
  user_message : Option String
  assistant_summary : Option String
  turn_title : Option String
deriving Repr, DecidableEq

/-- Python `s.split("\n")` (keeps empty pieces, yields one piece for the
empty string). -/
def splitNlAux : List Char → List Char → List String
  | [], cur => [String.mk cur.reverse]
  | c :: cs, cur =>
    if c == '\n' then String.mk cur.reverse :: splitNlAux cs []
    else splitNlAux cs (c :: cur)

/-- Python `s.split("\n")`. -/
def splitNl (s : String) : List String := splitNlAux s.toList []

/-- The TITLE:/SUMMARY: line loop of `_llm_summarize_turn`: on each line a
matching prefix overwrites the field (last match wins). -/
def parseSummaryLines (text : String) : String × String :=
  (splitNl (pyStrip text)).foldl
    (fun (acc : String × String) line =>
      if pyStartsWith "TITLE:" line then (pyStrip (pyDrop 6 line), acc.2)
      else if pyStartsWith "SUMMARY:" line then (acc.1, pyStrip (pyDrop 8 line))
      else acc)
    ("", "")

/-- _llm_summarize_turn: raises (returns `none`) without an api key or when
the API call fails; otherwise sends the first 1000 chars of its argument and
parses TITLE:/SUMMARY: lines, truncations of the argument filling empty
fields. -/
def _llm_summarize_turn (api_key : Bool) (llm : String → Option String)
    (user_message : String) : Option (String × String) :=
  if !api_key then none
  else
    match llm (pyTake 1000 user_message) with
    | none => none
    | some text =>
      let r := parseSummaryLines text
      some ((if r.1 == "" then pyTake 80 user_message else r.1),
            (if r.2 == "" then pyTake 200 user_message else r.2))

/-- process_turn_summary_job on an existing turn row: no-op when a summary is
already present; short messages are summarized by truncation without an LLM
call; otherwise the LLM result is used and any failure falls back to
truncation. Never raises. -/
def process_turn_summary_job (api_key : Bool) (llm : String → Option String)
    (turn : AgentTurnRow) : AgentTurnRow :=
  if optTruthy turn.assistant_summary then turn
  else
    let user_msg := pyTake 200 (turn.user_message.getD "")
    if user_msg.length < 50 then
      { turn with
        turn_title :=
          some (if user_msg != "" then pyTake 80 user_msg else "Short exchange")
        assistant_summary := some user_msg }
    else
      match _llm_summarize_turn api_key llm user_msg with
      | some ts =>
        { turn with turn_title := some ts.1, assistant_summary := some ts.2 }
      | none =>
        { turn with
          turn_title := some (pyTake 80 user_msg)
          assistant_summary := some (pyTake 200 user_msg) }

/-- The turn_summary handler as claim C8 words it: fewer than 50 chars means
title and summary come from the user message truncated to 80 and 200;
otherwise the summarizer is called with the first 1000 chars of the user
message; on failure title is the first 80 and summary the first 200 chars. -/
def process_turn_summary_claim (api_key : Bool) (llm : String → Option String)
    (turn : AgentTurnRow) : AgentTurnRow :=
  if optTruthy turn.assistant_summary then turn
  else
    let msg := turn.user_message.getD ""
    if msg.length < 50 then
      { turn with
        turn_title := some (pyTake 80 msg)
        assistant_summary := some (pyTake 200 msg) }
    else
      match _llm_summarize_turn api_key llm msg with
      | some ts =>
        { turn with turn_title := some ts.1, assistant_summary := some ts.2 }
      | none =>
        { turn with
          turn_title := some (pyTake 80 msg)
          assistant_summary := some (pyTake 200 msg) }

/-- The turn_summary handler as amended: the stored user message is truncated
to 200 chars up front, so the branch bound, the summarizer argument (its
1000-char cap never binds) and the fallbacks all see at most 200 chars; an
empty message gets the title Short exchange. -/
def process_turn_summary_amended (api_key : Bool)
    (llm : String → Option String) (turn : AgentTurnRow) : AgentTurnRow :=
  if optTruthy turn.assistant_summary then turn
  else
    let msg := turn.user_message.getD ""
    if msg.length < 50 then
      { turn with
        turn_title :=
          some (if msg == "" then "Short exchange" else pyTake 80 msg)
        assistant_summary := some (pyTake 200 msg) }
    else
      match (if api_key then llm (pyTake 200 msg) else none) with
      | some text =>
        let r := parseSummaryLines text
        { turn with
          turn_title :=
            some (if r.1 == "" then pyTake 80 msg else r.1)
          assistant_summary :=
            some (if r.2 == "" then pyTake 200 msg else r.2) }
      | none =>
        { turn with
          turn_title := some (pyTake 80 msg)
          assistant_summary := some (pyTake 200 msg) }

/-! ## Classifier (src/simon/context/classifier.py) -/

/-- A regex word character (`\w`): alphanumeric or underscore. -/
def isWordChar (c : Char) : Bool := c.isAlphanum || c == '_'

/-- Whether `_word_match` prepends `\b`: the first pattern char is
alphanumeric (Python `pattern[0].isalnum()`). -/
def wordAnchorL (p : List Char) : Bool :=
  match p.head? with
  | some c => c.isAlphanum
  | none => false

/-- Whether `_word_match` appends `\b`: the last pattern char is
alphanumeric. -/
def wordAnchorR (p : List Char) : Bool :=
  match p.getLast? with
  | some c => c.isAlphanum
  | none => false

/-- The escaped pattern with its optional word-boundary anchors matches at
position `i` of `t`: the pattern is a prefix of `t.drop i`, and each present
anchor finds no word character just outside the occurrence. -/
def matchesAt (p t : List Char) (i : Nat) : Bool :=
  p.isPrefixOf (t.drop i)
    && (!wordAnchorL p
        || match i with
           | 0 => true
           | j + 1 =>
             match t.get? j with
             | some c => !isWordChar c
             | none => true)
    && (!wordAnchorR p
        || match t.get? (i + p.length) with
           | some c => !isWordChar c
           | none => true)

/-- _word_match: `re.search` of the escaped pattern between its optional
word-boundary anchors, as a scan over every position of the text. -/
def _word_match (pattern text : String) : Bool :=
  let p := pattern.toList
  let t := text.toList
  (List.range (t.length + 1)).any (fun i => matchesAt p t i)

/-- The code query-type vocabulary. -/
def codeWords : List String :=
  ["bug", "fix", "error", "refactor", "test", "function", "class", "module",
   "import", "file", "code", "implement", "build", "compile", "lint", "deploy"]

/-- The email query-type vocabulary. -/
def emailWords : List String :=
  ["email", "reply", "send", "draft", "inbox", "gmail", "message", "forward"]

/-- The task query-type vocabulary. -/
def taskWords : List String :=
  ["task", "todo", "priority", "deadline", "sprint", "kanban", "backlog",
   "assign", "commit", "milestone"]

/-- The meta query-type vocabulary. -/
def metaWords : List String :=
  ["focus", "vault", "sync", "config", "setup", "hook", "daemon", "worker"]

/-- _detect_query_type: first matching category among code, email, task and
meta, else general. Each vocabulary regex `\b(w1|w2|...)\b` with IGNORECASE
matches exactly when one of its (all-alphanumeric, lowercase) words matches
word-bounded in the lowercased prompt. -/
def _detect_query_type (prompt : String) : String :=
  let pl := pyLower prompt
  if codeWords.any (fun w => _word_match w pl) then "code"
  else if emailWords.any (fun w => _word_match w pl) then "email"
  else if taskWords.any (fun w => _word_match w pl) then "task"
  else if metaWords.any (fun w => _word_match w pl) then "meta"
  else "general"

/-- The classification result. `confidence` is a rational standing for the
Python float. -/
structure PromptClassification where
  project_slugs : List String
  person_names : List String
  query_type : String
  workspace_project : Option String
  explicit_project : Option String
  file_paths : List String
  confidence : ℚ
deriving Repr, DecidableEq

/-- The freshly constructed `PromptClassification()` with its dataclass
defaults. -/
def emptyClassification : PromptClassification :=
  { project_slugs := []
    person_names := []
    query_type := "general"
    workspace_project := none
    explicit_project := none
    file_paths := []
    confidence := 0 }

/-- pathlib `Path(s).name`: the last component, after trailing slashes are
dropped; `.` and `..` have no name. -/
def pathName (s : String) : String :=
  let cs := (s.toList.reverse.dropWhile (fun c => c == '/')).reverse
  let n := String.mk ((cs.reverse.takeWhile (fun c => c != '/')).reverse)
  if n == "." || n == ".." then "" else n

/-- _compute_confidence: the maximum applicable floor, 0.1 when nothing
scored. -/
def _compute_confidence (c : PromptClassification) : ℚ :=
  let score : ℚ := 0
  let score :=
    if optTruthy c.explicit_project = true then max score (9/10) else score
  let score := if c.project_slugs ≠ [] then max score (8/10) else score
  let score := if c.person_names ≠ [] then max score (7/10) else score
  let score :=
    if optTruthy c.workspace_project = true ∧ score < 1/2 then (1/2 : ℚ)
    else score
  let score :=
    if c.query_type ≠ "general" ∧ score < 3/10 then (3/10 : ℚ)
    else score
  if score = 0 then 1/10 else score

/-- classify. The entity lists come from `load_entities` (active project
(slug, name) pairs and person names); `explicit` is the value
`get_active_project(workspace=cwd)` would return and `extractPaths` stands
for `extract_file_paths_from_text`. -/
def classify (explicit : Option String)
    (extractPaths : String → List String)
    (projects : List (String × String)) (people : List String)
    (prompt : String) (cwd : Option String) : PromptClassification :=
  if prompt == "" || (pyStrip prompt).length < 3 then emptyClassification
  else
    let promptLower := pyLower prompt
    let c0 := emptyClassification
    let c1 :=
      match explicit with
      | some e =>
        if e != "" then
          { c0 with explicit_project := some e, project_slugs := [e] }
        else c0
      | none => c0
    let c2 :=
      match cwd with
      | some w =>
        if w != "" then
          { c1 with workspace_project := some (pyLower (pathName w)) }
        else c1
      | none => c1
    let c3 := projects.foldl
      (fun c pr =>
        if _word_match pr.1 promptLower then
          (if c.project_slugs.contains pr.1 then c
           else { c with project_slugs := c.project_slugs ++ [pr.1] })
        else if pr.2 != "" && _word_match (pyLower pr.2) promptLower then
          (if c.project_slugs.contains pr.1 then c
           else { c with project_slugs := c.project_slugs ++ [pr.1] })
        else c)
      c2
    let c4 := people.foldl
      (fun c name =>
        if decide (2 < name.length) && _word_match (pyLower name) promptLower
        then
          (if c.person_names.contains name then c
           else { c with person_names := c.person_names ++ [name] })
        else c)
      c3
    let c5 := { c4 with
      query_type := _detect_query_type prompt
      file_paths := extractPaths prompt }
    { c5 with confidence := _compute_confidence c5 }

/-! ## Formatter (src/simon/context/formatter.py) -/

/-- An in-memory context block (the fields the formatter reads). -/
structure ContextBlock where
  source_type : String
  content : String
  relevance_score : ℚ
deriving Repr, DecidableEq

/-- The fixed label per source type. -/
def _TYPE_LABELS : List (String × String) :=
  [("conversation", "Conv"), ("task", "Task"), ("email", "Email"),
   ("commitment", "Commitment"), ("person", "Person"), ("sprint", "Sprint"),
   ("file_context", "File"), ("error", "Error"), ("skill", "Skill")]

/-- Python `str.title()` for ASCII: a letter is uppercased after a non-letter
and lowercased after a letter. -/
def pyTitleAux : List Char → Bool → List Char
  | [], _ => []
  | c :: cs, prevAlpha =>
    (if prevAlpha then c.toLower else c.toUpper) :: pyTitleAux cs c.isAlpha

/-- Python `str.title()`. -/
def pyTitle (s : String) : String := String.mk (pyTitleAux s.toList false)

/-- _format_single_block: `[Label] content` with the fixed label of the
source type, title-cased type for unknown types. -/
def _format_single_block (b : ContextBlock) : String :=
  let label :=
    match _TYPE_LABELS.find? (fun p => p.1 == b.source_type) with
    | some p => p.2
    | none => pyTitle b.source_type
  "[" ++ label ++ "] " ++ b.content

/-- _estimate_tokens: `max(1, len(text) // 4)`. -/
def _estimate_tokens (s : String) : Nat := max 1 (s.length / 4)

/-- Insert a block into a list sorted by relevance descending, skipping only
blocks of strictly greater relevance. The inserted block therefore lands in
front of every already-placed block of equal relevance; under the foldr
below the already-placed blocks are the ones that come later in the input,
so ties keep their input order (the stability of Python sorted). -/
def insertBlockDesc (b : ContextBlock) : List ContextBlock → List ContextBlock
  | [] => [b]
  | x :: xs =>
    if b.relevance_score < x.relevance_score then x :: insertBlockDesc b xs
    else b :: x :: xs

/-- `sorted(blocks, key=relevance_score, reverse=True)`: a stable descending
sort as an insertion sort from the right. -/
def sortBlocksDesc (bs : List ContextBlock) : List ContextBlock :=
  bs.foldr insertBlockDesc []

/-- The overflow note of format_context_blocks, exactly as the source file
spells it (the em dash appears in the file as the three characters that
follow the word more). -/
def overflowNote (n : Nat) : String :=
  "\n\n(+" ++ toString n ++ " more â€” run `focus search` for details)"

/-- The greedy loop of format_context_blocks: a block whose cost fits the
remaining budget is appended and charged, any other block only counts as
overflow — the loop keeps scanning later blocks. Returns (formatted parts,
overflow count, remaining budget). -/
def formatLoop : List ContextBlock → List String → Nat → Int →
    List String × Nat × Int
  | [], parts, ovf, rem => (parts, ovf, rem)
  | b :: bs, parts, ovf, rem =>
    let f := _format_single_block b
    let t : Int := (_estimate_tokens f : Int)
    if t ≤ rem then formatLoop bs (parts ++ [f]) ovf (rem - t)
    else formatLoop bs parts (ovf + 1) rem

/-- format_context_blocks: sort by relevance descending, charge the header,
greedily fill the budget, append the overflow note when blocks were dropped,
return the empty string when no block fit. -/
def format_context_blocks (blocks : List ContextBlock) (max_tokens : Int) :
    String :=
  if blocks.isEmpty then ""
  else
    let header := "## Focus Context\n\n"
    let remaining : Int := max_tokens - (_estimate_tokens header : Int)
    let r := formatLoop (sortBlocksDesc blocks) [] 0 remaining
    if r.1.isEmpty then ""
    else
      let result := header ++ String.intercalate "\n" r.1
      if 0 < r.2.1 then result ++ overflowNote r.2.1 else result

/-- The overflow note as claim C7 words it, with an em dash and single
quotes. -/
def claimOverflowNote (n : Nat) : String :=
  "\n\n(+" ++ toString n ++ " more — run \x27focus search\x27 for details)"

/-- The take-while-fits loop of the formatter as claim C7 words it: the loop
stops at the first block that does not fit, every remaining block counts as
dropped. -/
def formatTakeLoop : List ContextBlock → Int → List String × Nat
  | [], _ => ([], 0)
  | b :: bs, rem =>
    let f := _format_single_block b
    let t : Int := (_estimate_tokens f : Int)
    if t ≤ rem then
      let r := formatTakeLoop bs (rem - t)
      (f :: r.1, r.2)
    else ([], bs.length + 1)

/-- format_context_blocks as claim C7 states it: sorted descending, header
charged first, inclusion stops once the budget is exhausted, the dropped
count is reported with the claimed suffix, empty string when no block
fits. -/
def format_context_blocks_claim (blocks : List ContextBlock)
    (max_tokens : Int) : String :=
  if blocks.isEmpty then ""
  else
    let header := "## Focus Context\n\n"
    let remaining : Int := max_tokens - (_estimate_tokens header : Int)
    let r := formatTakeLoop (sortBlocksDesc blocks) remaining
    if r.1.isEmpty then ""
    else
      let result := header ++ String.intercalate "\n" r.1
      if 0 < r.2 then result ++ claimOverflowNote r.2 else result

/-- The greedy selection of the amended claim C7, separated from rendering:
which blocks of the sorted list are included and how many are dropped. -/
def greedySelect : List ContextBlock → Int → List ContextBlock × Nat
  | [], _ => ([], 0)
  | b :: bs, rem =>
    let t : Int := (_estimate_tokens (_format_single_block b) : Int)
    if t ≤ rem then
      let r := greedySelect bs (rem - t)
      (b :: r.1, r.2)
    else
      let r := greedySelect bs rem
      (r.1, r.2 + 1)

/-- format_context_blocks as amended: each block of the descending-sorted
list is kept when its cost `max(1, len // 4)` fits the budget left after the
header and every earlier kept block, and is otherwise skipped — later,
cheaper blocks are still considered. Kept blocks are rendered in order; a
positive dropped count appends the overflow note as the source spells it;
no kept block yields the empty string. -/
def format_context_blocks_amended (blocks : List ContextBlock)
    (max_tokens : Int) : String :=
  if blocks.isEmpty then ""
  else
    let header := "## Focus Context\n\n"
    let sel := greedySelect (sortBlocksDesc blocks)
      (max_tokens - (_estimate_tokens header : Int))
    if sel.1.isEmpty then ""
    else
      let body := String.intercalate "\n" (sel.1.map _format_single_block)
      if 0 < sel.2 then header ++ body ++ overflowNote sel.2
      else header ++ body

/-! ## Artifact extractor (src/simon/context/artifact_extractor.py) -/

/-- A metadata value: a string or a list of strings (the input_keys list). -/
inductive MetaVal
  | s (v : String)
  | ls (v : List String)
deriving Repr, DecidableEq

/-- One extracted artifact. -/
structure Artifact where
  artifact_type : String
  artifact_value : String
  artifact_metadata : List (String × MetaVal)
deriving Repr, DecidableEq

/-- The accumulating TurnArtifacts dataclass. -/
structure TurnArtifacts where
  artifacts : List Artifact
  files_read : List String
  files_written : List String
  files_edited : List String
  commands_run : List String
  errors_encountered : List String
  tool_call_count : Nat
deriving Repr, DecidableEq

/-- A fresh `TurnArtifacts()`. -/
def emptyTurnArtifacts : TurnArtifacts :=
  { artifacts := [], files_read := [], files_written := [], files_edited := [],
    commands_run := [], errors_encountered := [], tool_call_count := 0 }

/-- A `tool_use` content block: the tool name and its (string-valued) input
dict. -/
structure ToolUseBlock where
  name : String
  input : List (String × String)
deriving Repr, DecidableEq

/-- Python `d.get(k, "")` over the modelled dict. -/
def dictGet (d : List (String × String)) (k : String) : String :=
  match d.find? (fun p => p.1 == k) with
  | some p => p.2
  | none => ""

/-- Python `list(d.keys())`. -/
def dictKeys (d : List (String × String)) : List String := d.map Prod.fst

/-- _process_tool_use: count the tool call, then branch on the tool name,
appending to the per-category lists and the artifact list. -/
def _process_tool_use (block : ToolUseBlock) (result : TurnArtifacts) :
    TurnArtifacts :=
  let tool_name := block.name
  let tool_input := block.input
  let result := { result with tool_call_count := result.tool_call_count + 1 }
  if tool_name == "Read" then
    let path := dictGet tool_input "file_path"
    if path != "" then
      { result with
        files_read := result.files_read ++ [path]
        artifacts := result.artifacts ++
          [⟨"file_read", path, [("tool", .s tool_name)]⟩] }
    else result
  else if tool_name == "Glob" || tool_name == "Grep" then
    let pattern := dictGet tool_input "pattern"
    let path := dictGet tool_input "path"
    { result with
      artifacts := result.artifacts ++
        [⟨"file_read", (if pattern != "" then pattern else path),
          [("tool", .s tool_name), ("pattern", .s pattern),
           ("path", .s path)]⟩] }
  else if tool_name == "Write" then
    let path := dictGet tool_input "file_path"
    if path != "" then
      { result with
        files_written := result.files_written ++ [path]
        artifacts := result.artifacts ++
          [⟨"file_write", path, [("tool", .s tool_name)]⟩] }
    else result
  else if tool_name == "Edit" || tool_name == "NotebookEdit" then
    let fp := dictGet tool_input "file_path"
    let path := if fp != "" then fp else dictGet tool_input "notebook_path"
    if path != "" then
      { result with
        files_edited := result.files_edited ++ [path]
        artifacts := result.artifacts ++
          [⟨"file_edit", path,
            [("tool", .s tool_name),
             ("old_string",
              .s (pyTake 100 (dictGet tool_input "old_string")))]⟩] }
    else result
  else if tool_name == "Bash" then
    let command := dictGet tool_input "command"
    if command != "" then
      { result with
        commands_run := result.commands_run ++ [command]
        artifacts := result.artifacts ++
          [⟨"command", pyTake 500 command, [("tool", .s tool_name)]⟩] }
    else result
  else if tool_name == "Task" then
    let prompt := pyTake 200 (dictGet tool_input "prompt")
    { result with
      artifacts := result.artifacts ++
        [⟨"tool_call", "Task: " ++ prompt,
          [("tool", .s tool_name),
           ("subagent_type", .s (dictGet tool_input "subagent_type"))]⟩] }
  else
    { result with
      artifacts := result.artifacts ++
        [⟨"tool_call", tool_name,
          [("tool", .s tool_name),
           ("input_keys", .ls ((dictKeys tool_input).take 10))]⟩] }

/-! ## Concrete inputs used by counterexamples and witnesses -/

/-- A failed job addressed by the C5 counterexample. -/
def jobFailedEx : Job :=
  { id := 0, kind := "turn_summary", payload := "p", dedupe_key := none,
    status := "failed", priority := 10, attempts := 3, max_attempts := 3,
    locked_until := none, error_message := some "boom", created_at := 0 }

/-- A queued job used by the C5 witness. -/
def jobQueuedEx : Job :=
  { id := 1, kind := "turn_summary", payload := "q", dedupe_key := none,
    status := "queued", priority := 10, attempts := 0, max_attempts := 10,
    locked_until := none, error_message := none, created_at := 5 }

/-- A retry-eligible job used by the C2 witness. -/
def jobRetryEx : Job :=
  { id := 7, kind := "session_process", payload := "r", dedupe_key := none,
    status := "processing", priority := 5, attempts := 2, max_attempts := 10,
    locked_until := some 50, error_message := none, created_at := 1 }

/-- A 501-character Bash command, longer than the 500-char artifact
truncation. -/
def cmd501 : String := String.mk (List.replicate 501 'x')

/-- A Bash tool_use block carrying the 501-char command. -/
def bashBlockEx : ToolUseBlock := { name := "Bash", input := [("command", cmd501)] }

/-- A Bash tool_use block with a short command, for the C9 witness. -/
def bashBlockEx2 : ToolUseBlock := { name := "Bash", input := [("command", "ls -la")] }

/-- A 300-character user message, longer than the 200-char pre-truncation of
the turn_summary handler. -/
def msg300 : String := String.mk (List.replicate 300 'a')

/-- A turn row holding the 300-char message and no summary yet. -/
def turnRowEx : AgentTurnRow :=
  { user_message := some msg300, assistant_summary := none, turn_title := none }

/-- A summarizer response echoing the request as the summary line, to expose
what the handler sent. -/
def llmEcho : String → Option String := fun sent => some ("SUMMARY: " ++ sent)

/-- A high-relevance block too large for the C7 counterexample budget. -/
def blockBigEx : ContextBlock :=
  { source_type := "task", content := String.mk (List.replicate 100 'a'),
    relevance_score := 1 }

/-- A low-relevance block small enough for the C7 counterexample budget. -/
def blockSmallEx : ContextBlock :=
  { source_type := "task", content := "hi", relevance_score := 0 }

/-! ## Lemmas about the claiming order -/

theorem jobBefore_iff (a b : Job) :
    jobBefore a b = true ↔
      (a.priority < b.priority ∨
        (a.priority = b.priority ∧ a.created_at < b.created_at)) := by
  simp [jobBefore]

theorem jobBefore_irrefl (a : Job) : jobBefore a a = false := by
  simp [jobBefore]

theorem jobBefore_asymm {a b : Job} (h : jobBefore a b = true) :
    jobBefore b a = false := by
  rw [jobBefore_iff] at h
  rw [Bool.eq_false_iff, Ne, jobBefore_iff]
  omega

theorem jobBefore_total_cases {a b c : Job} (h : jobBefore a c = true) :
    jobBefore a b = true ∨ jobBefore b c = true := by
  rw [jobBefore_iff] at h
  rw [jobBefore_iff, jobBefore_iff]
  omega

theorem pickBest_eq_none : ∀ {l : List Job}, pickBest l = none ↔ l = [] := by
  intro l
  induction l with
  | nil => simp [pickBest]
  | cons j rest ih =>
    cases h : pickBest rest <;> simp only [pickBest, h] <;> [skip; split] <;>
      simp

theorem pickBest_mem :
    ∀ {l : List Job} {j : Job}, pickBest l = some j → j ∈ l := by
  intro l
  induction l with
  | nil => intro j h; simp [pickBest] at h
  | cons a rest ih =>
    intro j h
    simp only [pickBest] at h
    cases hr : pickBest rest with
    | none =>
      rw [hr] at h
      injection h with h
      subst h
      exact List.mem_cons_self a rest
    | some b =>
      rw [hr] at h
      dsimp only at h
      by_cases hba : jobBefore b a = true
      · rw [if_pos hba] at h
        injection h with h
        subst h
        exact List.mem_cons_of_mem _ (ih hr)
      · rw [if_neg hba] at h
        injection h with h
        subst h
        exact List.mem_cons_self a rest

theorem pickBest_min :
    ∀ {l : List Job} {j : Job}, pickBest l = some j →
      ∀ k ∈ l, jobBefore k j = false := by
  intro l
  induction l with
  | nil => intro j h; simp [pickBest] at h
  | cons a rest ih =>
    intro j h
    simp only [pickBest] at h
    cases hr : pickBest rest with
    | none =>
      rw [hr] at h
      injection h with h
      subst h
      have hrest := pickBest_eq_none.mp hr
      subst hrest
      intro k hk
      rcases List.mem_cons.mp hk with rfl | hk
      · exact jobBefore_irrefl _
      · simp at hk
    | some b =>
      rw [hr] at h
      dsimp only at h
      by_cases hba : jobBefore b a = true
      · rw [if_pos hba] at h
        injection h with h
        subst h
        intro k hk
        rcases List.mem_cons.mp hk with rfl | hk
        · exact jobBefore_asymm hba
        · exact ih hr k hk
      · rw [if_neg hba] at h
        injection h with h
        subst h
        intro k hk
        rcases List.mem_cons.mp hk with rfl | hk
        · exact jobBefore_irrefl _
        · have hkb := ih hr k hk
          by_contra hkj
          rw [Bool.not_eq_false] at hkj
          rcases jobBefore_total_cases (b := b) hkj with h1 | h1
          · rw [hkb] at h1
            exact Bool.false_ne_true h1
          · exact hba h1

/-- What claim_job does, in both cases: either no row is eligible and the
state is untouched with `none` returned, or some eligible row minimal in the
(priority, created_at) order is returned with the claiming update applied to
it in place. -/
theorem claim_job_cases (kinds : Option (List String)) (lease now : Int)
    (jobs : List Job) :
    (claim_job kinds lease now jobs = (none, jobs) ∧
      ∀ j ∈ jobs, jobEligible kinds now j = false)
    ∨ (∃ j, j ∈ jobs ∧ jobEligible kinds now j = true ∧
        (∀ k ∈ jobs, jobEligible kinds now k = true → jobBefore k j = false) ∧
        claim_job kinds lease now jobs =
          (some (claimUpdate lease now j),
           jobs.map (fun k =>
             if k.id == j.id then claimUpdate lease now j else k))) := by
  cases hp : pickBest (jobs.filter (jobEligible kinds now)) with
  | none =>
    left
    constructor
    · simp [claim_job, hp]
    · intro j hj
      have hnil := pickBest_eq_none.mp hp
      by_contra hb
      rw [Bool.not_eq_false] at hb
      have hjf : j ∈ jobs.filter (jobEligible kinds now) :=
        List.mem_filter.mpr ⟨hj, hb⟩
      rw [hnil] at hjf
      simp at hjf
  | some j =>
    right
    have hmf := List.mem_filter.mp (pickBest_mem hp)
    refine ⟨j, hmf.1, hmf.2, ?_, ?_⟩
    · intro k hk he
      exact pickBest_min hp k (List.mem_filter.mpr ⟨hk, he⟩)
    · simp [claim_job, hp]

/-- C1: for every queue state, claim_job selects among jobs with status in
(queued, retry) whose locked_until is null or in the past (and whose kind is
in the allowed set, if given) a job minimal by (priority ascending,
created_at ascending), and atomically updates that job to status=processing,
locked_until=now()+lease_seconds, attempts=attempts+1, returning it; it
returns none with the state untouched when no job is eligible. -/
theorem claim_job_spec (kinds : Option (List String)) (lease now : Int)
    (jobs : List Job) :
    (claim_job kinds lease now jobs = (none, jobs) ∧
      ∀ j ∈ jobs, jobEligible kinds now j = false)
    ∨ (∃ j, j ∈ jobs ∧ jobEligible kinds now j = true ∧
        (∀ k ∈ jobs, jobEligible kinds now k = true → jobBefore k j = false) ∧
        claim_job kinds lease now jobs =
          (some (claimUpdate lease now j),
           jobs.map (fun k =>
             if k.id == j.id then claimUpdate lease now j else k))) :=
  claim_job_cases kinds lease now jobs

/-- Updating the rows addressed by an id leaves the first row found under
that id the update of the one found before, provided the update preserves
ids. -/
theorem find_map_update (jobs : List Job) (job_id : Nat) (f : Job → Job)
    (hf : ∀ k, (f k).id = k.id) :
    (jobs.map (fun k => if k.id == job_id then f k else k)).find?
        (fun j => j.id == job_id) =
      (jobs.find? (fun j => j.id == job_id)).map f := by
  induction jobs with
  | nil => simp
  | cons a rest ih =>
    cases h : (a.id == job_id) with
    | true =>
      have h1 : List.find? (fun j => j.id == job_id) (a :: rest) = some a :=
        List.find?_cons_of_pos (p := fun (j : Job) => j.id == job_id) rest h
      have h2 : ((f a).id == job_id) = true := by rw [hf a]; exact h
      have h3 : List.find? (fun j => j.id == job_id)
          (f a :: rest.map (fun k => if k.id == job_id then f k else k)) =
            some (f a) :=
        List.find?_cons_of_pos (p := fun (j : Job) => j.id == job_id) _ h2
      rw [List.map_cons, if_pos h, h3, h1, Option.map_some']
    | false =>
      have hb : ¬((a.id == job_id) = true) := by simp [h]
      have h1 : List.find? (fun j => j.id == job_id) (a :: rest) =
          List.find? (fun j => j.id == job_id) rest :=
        List.find?_cons_of_neg (p := fun (j : Job) => j.id == job_id) rest hb
      have h3 : List.find? (fun j => j.id == job_id)
          (a :: rest.map (fun k => if k.id == job_id then f k else k)) =
            List.find? (fun j => j.id == job_id)
              (rest.map (fun k => if k.id == job_id then f k else k)) :=
        List.find?_cons_of_neg (p := fun (j : Job) => j.id == job_id) _ hb
      rw [List.map_cons, if_neg hb, h3, h1]
      exact ih

/-- C2: fail_job leaves every job addressed by an existing id updated by the
rule: with attempts below max_attempts it is set to retry with the error
recorded and locked_until = now + min(2 ** attempts * 30, 3600) seconds,
otherwise it is set to failed. -/
theorem fail_job_spec (now : Int) (job_id : Nat) (err : String)
    (jobs : List Job) :
    (fail_job now job_id err jobs).find? (fun j => j.id == job_id) =
      (jobs.find? (fun j => j.id == job_id)).map (fun job =>
        if job.attempts < job.max_attempts then
          { job with
            status := "retry"
            error_message := some err
            locked_until := some (now + (backoffSeconds job.attempts : Int)) }
        else { job with status := "failed", error_message := some err }) := by
  cases hf : jobs.find? (fun j => j.id == job_id) with
  | none =>
    simp only [fail_job, hf, Option.map_none']
  | some job =>
    simp only [fail_job, hf, Option.map_some']
    by_cases hlt : job.attempts < job.max_attempts
    · rw [if_pos hlt, if_pos hlt,
        find_map_update jobs job_id
          (fun k => { k with
            status := "retry"
            error_message := some err
            locked_until := some (now + (backoffSeconds job.attempts : Int)) })
          (fun k => rfl),
        hf, Option.map_some']
    · rw [if_neg hlt, if_neg hlt,
        find_map_update jobs job_id
          (fun k => { k with status := "failed", error_message := some err })
          (fun k => rfl),
        hf, Option.map_some']

/-- C5 counterexample: complete_job addresses its row with no guard on the
current status, so it moves an already failed job to done — a terminal
status transitions under a queue operation. -/
theorem terminal_status_counterexample :
    jobFailedEx.status = "failed" ∧
    (complete_job 0 [jobFailedEx]).map Job.status = ["done"] := by decide

/-- C5 amended: claim_job only ever rewrites a row it selected as eligible
(status queued or retry), expire_stale_leases only rewrites processing rows,
and enqueue_job never rewrites an existing row — so none of the three ever
changes a done or failed row; complete_job and fail_job, however, update the
addressed row unconditionally and can change a terminal status. -/
theorem terminal_status_amended (kinds : Option (List String))
    (lease now : Int) (new_id : Nat) (kind payload : String)
    (dk : Option String) (priority : Int) (ma : Nat) (created : Int)
    (jobs : List Job) (j : Job) (hmem : j ∈ jobs)
    (hids : jobs.Pairwise (fun a b => a.id ≠ b.id))
    (hterm : j.status = "done" ∨ j.status = "failed") :
    j ∈ (claim_job kinds lease now jobs).2 ∧
    j ∈ expire_stale_leases now jobs ∧
    j ∈ (enqueue_job new_id kind payload dk priority ma created jobs).2 := by
  have hnotproc : (j.status == "processing") = false := by
    rcases hterm with h | h <;> simp [h]
  refine ⟨?_, ?_, ?_⟩
  · rcases claim_job_cases kinds lease now jobs with ⟨heq, _⟩ |
      ⟨b, hbmem, hbelig, _, heq⟩
    · rw [heq]
      exact hmem
    · rw [heq]
      have hne : j ≠ b := by
        intro hjb
        subst hjb
        simp only [jobEligible, Bool.and_eq_true, Bool.or_eq_true,
          beq_iff_eq] at hbelig
        rcases hterm with h | h <;> rcases hbelig.1.1 with h2 | h2 <;>
          rw [h] at h2 <;> simp at h2
      have hidne : j.id ≠ b.id :=
        hids.forall (fun a b h => h.symm) hmem hbmem hne
      refine List.mem_map.mpr ⟨j, hmem, ?_⟩
      rw [if_neg (by simpa using hidne)]
  · refine List.mem_map.mpr ⟨j, hmem, ?_⟩
    rw [if_neg]
    simp [hnotproc]
  · simp only [enqueue_job]
    cases dk with
    | none => simp [hmem]
    | some d =>
      by_cases hd : (d == "") = true
      · simp [hd, hmem]
      · rw [Bool.not_eq_true] at hd
        by_cases ha : (jobs.any fun jj => jj.dedupe_key == some d) = true
        · simp [hd, ha, hmem]
        · rw [Bool.not_eq_true] at ha
          simp [hd, ha, hmem]

/-- C5 amended, witnessed on a concrete state holding a failed and a queued
job: the failed row survives claim_job, expire_stale_leases and enqueue_job
unchanged. -/
theorem terminal_status_amended_witness :
    jobFailedEx ∈ [jobFailedEx, jobQueuedEx] ∧
    (jobFailedEx.status = "done" ∨ jobFailedEx.status = "failed") ∧
    jobFailedEx ∈
      (claim_job (some ["turn_summary"]) 300 100 [jobFailedEx, jobQueuedEx]).2 ∧
    jobFailedEx ∈ expire_stale_leases 100 [jobFailedEx, jobQueuedEx] ∧
    jobFailedEx ∈
      (enqueue_job 2 "k" "p" none 10 10 0 [jobFailedEx, jobQueuedEx]).2 := by
  have h := terminal_status_amended (some ["turn_summary"]) 300 100 2 "k" "p"
    none 10 10 0 [jobFailedEx, jobQueuedEx] jobFailedEx (by decide)
    (by decide) (by decide)
  exact ⟨by decide, by decide, h.1, h.2.1, h.2.2⟩

/-! ## Recorder lemmas -/

theorem recordTurns_nil_hashes (ts : List Turn) :
    recordTurns [] ts = (ts.length, 0, ts) := by
  induction ts with
  | nil => rfl
  | cons t rest ih => simp [recordTurns, ih]

theorem recordTurns_all_present (hs : List String) (ts : List Turn)
    (h : ∀ t ∈ ts, hs.contains t.content_hash = true) :
    recordTurns hs ts = (0, ts.length, []) := by
  induction ts with
  | nil => rfl
  | cons t rest ih =>
    have ht : t.content_hash ∈ hs := by
      simpa using h t (List.mem_cons_self t rest)
    have hr := ih (fun u hu => h u (List.mem_cons_of_mem t hu))
    simp [recordTurns, ht, hr]

/-- C3: record_session is idempotent. A first call on a fresh session records
every parsed turn and skips none; an immediately repeated call on the same
parsed transcript records nothing, skips every turn (dedup by content_hash
within the session), and inserts no new row. -/
theorem record_session_idempotent (turns : List Turn) :
    (record_session turns []).1 = (turns.length, 0) ∧
    record_session turns (record_session turns []).2 =
      ((0, turns.length), (record_session turns []).2) := by
  by_cases h : turns.isEmpty
  · have : turns = [] := by simpa using h
    subst this
    simp [record_session]
  · have h1 : record_session turns [] = ((turns.length, 0), turns) := by
      simp only [record_session, if_neg h, List.map_nil]
      rw [recordTurns_nil_hashes]
      simp
    have hall : ∀ t ∈ turns,
        (turns.map Turn.content_hash).contains t.content_hash = true := by
      intro t ht
      exact List.elem_eq_true_of_mem (List.mem_map_of_mem Turn.content_hash ht)
    have h2 : record_session turns turns = ((0, turns.length), turns) := by
      simp only [record_session, if_neg h]
      rw [recordTurns_all_present _ _ hall]
      simp
    rw [h1]
    exact ⟨rfl, h2⟩

/-! ## Parser lemmas -/

theorem assistantStep_user (cur : PendingTurn) (m : PMessage) :
    (assistantStep cur m).user_message = cur.user_message := rfl

theorem parseStep_user_eq (hash : String → String)
    (s : List Turn × Option PendingTurn) (m : PMessage)
    (h : m.role = "user") :
    parseStep hash s m = (finalizeMaybe hash s, some (newPending m)) := by
  simp [parseStep, h]

theorem parseStep_assistant_none (hash : String → String) (turns : List Turn)
    (m : PMessage) (h : m.role = "assistant") :
    parseStep hash (turns, none) m = (turns, none) := by
  simp [parseStep, h]

theorem parseStep_assistant_some (hash : String → String) (turns : List Turn)
    (cur : PendingTurn) (m : PMessage) (h : m.role = "assistant") :
    parseStep hash (turns, some cur) m = (turns, some (assistantStep cur m)) := by
  simp [parseStep, h]

theorem finalizeMaybe_empty (hash : String → String) (turns : List Turn)
    (cur : PendingTurn) (h : cur.user_message = "") :
    finalizeMaybe hash (turns, some cur) = turns := by
  simp [finalizeMaybe, h]

/-- Folding a run of assistant records into an open turn leaves the turn list
alone and keeps the pending user message. -/
theorem foldl_assistant_run (hash : String → String) :
    ∀ (assts : List PMessage), (∀ a ∈ assts, a.role = "assistant") →
      ∀ (turns : List Turn) (cur : PendingTurn),
        ∃ cur', assts.foldl (parseStep hash) (turns, some cur) =
            (turns, some cur') ∧ cur'.user_message = cur.user_message := by
  intro assts
  induction assts with
  | nil => exact fun _ turns cur => ⟨cur, rfl, rfl⟩
  | cons a rest ih =>
    intro h turns cur
    have ha := h a (List.mem_cons_self a rest)
    rw [List.foldl_cons, parseStep_assistant_some hash turns cur a ha]
    obtain ⟨cur', heq, huser⟩ :=
      ih (fun x hx => h x (List.mem_cons_of_mem a hx)) turns (assistantStep cur a)
    exact ⟨cur', heq, huser.trans (assistantStep_user cur a)⟩

/-- The parser state invariant: every accumulated turn has a non-empty user
message and the accumulated turn numbers are 0, 1, ... in order. -/
theorem finalizeMaybe_invariant (hash : String → String)
    (s : List Turn × Option PendingTurn)
    (h1 : ∀ t ∈ s.1, t.user_message ≠ "")
    (h2 : s.1.map Turn.turn_number = List.range s.1.length) :
    (∀ t ∈ finalizeMaybe hash s, t.user_message ≠ "") ∧
      (finalizeMaybe hash s).map Turn.turn_number =
        List.range (finalizeMaybe hash s).length := by
  obtain ⟨turns, cur⟩ := s
  cases cur with
  | none => exact ⟨h1, h2⟩
  | some c =>
    by_cases hc : (c.user_message != "") = true
    · have hfin : finalizeMaybe hash (turns, some c) =
          turns ++ [_finalize_turn hash c turns.length] := by
        simp only [finalizeMaybe, if_pos hc]
      rw [hfin]
      constructor
      · intro t ht
        rcases List.mem_append.mp ht with ht | ht
        · exact h1 t ht
        · simp only [List.mem_singleton] at ht
          subst ht
          simpa [_finalize_turn] using hc
      · simp [List.range_succ, h2, _finalize_turn]
    · have hc' : c.user_message = "" := by simpa using hc
      rw [finalizeMaybe_empty hash turns c hc']
      exact ⟨h1, h2⟩

theorem parseStep_invariant (hash : String → String)
    (s : List Turn × Option PendingTurn) (m : PMessage)
    (h1 : ∀ t ∈ s.1, t.user_message ≠ "")
    (h2 : s.1.map Turn.turn_number = List.range s.1.length) :
    (∀ t ∈ (parseStep hash s m).1, t.user_message ≠ "") ∧
      (parseStep hash s m).1.map Turn.turn_number =
        List.range (parseStep hash s m).1.length := by
  by_cases hu : (m.role == "user") = true
  · simp only [parseStep, if_pos hu]
    exact finalizeMaybe_invariant hash s h1 h2
  · by_cases hb : (m.role == "assistant") = true
    · simp only [parseStep, if_neg hu, if_pos hb]
      obtain ⟨turns, cur⟩ := s
      cases cur with
      | none => exact ⟨h1, h2⟩
      | some c => exact ⟨h1, h2⟩
    · simp only [parseStep, if_neg hu, if_neg hb]
      exact ⟨h1, h2⟩

theorem foldl_parse_invariant (hash : String → String) :
    ∀ (msgs : List PMessage) (s : List Turn × Option PendingTurn),
      (∀ t ∈ s.1, t.user_message ≠ "") →
      s.1.map Turn.turn_number = List.range s.1.length →
      (∀ t ∈ (msgs.foldl (parseStep hash) s).1, t.user_message ≠ "") ∧
        (msgs.foldl (parseStep hash) s).1.map Turn.turn_number =
          List.range (msgs.foldl (parseStep hash) s).1.length := by
  intro msgs
  induction msgs with
  | nil => exact fun s h1 h2 => ⟨h1, h2⟩
  | cons m rest ih =>
    intro s h1 h2
    rw [List.foldl_cons]
    obtain ⟨g1, g2⟩ := parseStep_invariant hash s m h1 h2
    exact ih (parseStep hash s m) g1 g2

/-- C10: the grouping pass of parse_session_into_turns only returns turns
with a non-empty user message, numbers them exactly 0, 1, ..., n-1 in list
order, silently discards a turn opened by a user record whose extracted text
is empty together with the assistant records grouped under it, and drops
assistant records that precede the first user record. -/
theorem parse_turns_spec :
    (∀ (hash : String → String) (msgs : List PMessage),
      ∀ t ∈ parse_session_into_turns hash msgs, t.user_message ≠ "") ∧
    (∀ (hash : String → String) (msgs : List PMessage),
      (parse_session_into_turns hash msgs).map Turn.turn_number =
        List.range (parse_session_into_turns hash msgs).length) ∧
    (∀ (hash : String → String) (pre : List PMessage) (u : PMessage)
        (assts rest : List PMessage),
      u.role = "user" → u.text = "" →
      (∀ a ∈ assts, a.role = "assistant") →
      (rest = [] ∨ ∃ v rest2, rest = v :: rest2 ∧ v.role = "user") →
      parse_session_into_turns hash (pre ++ u :: (assts ++ rest)) =
        parse_session_into_turns hash (pre ++ rest)) ∧
    (∀ (hash : String → String) (assts msgs : List PMessage),
      (∀ a ∈ assts, a.role = "assistant") →
      parse_session_into_turns hash (assts ++ msgs) =
        parse_session_into_turns hash msgs) := by
  have key : ∀ (hash : String → String) (msgs : List PMessage),
      (∀ t ∈ parse_session_into_turns hash msgs, t.user_message ≠ "") ∧
        (parse_session_into_turns hash msgs).map Turn.turn_number =
          List.range (parse_session_into_turns hash msgs).length := by
    intro hash msgs
    obtain ⟨g1, g2⟩ := foldl_parse_invariant hash msgs ([], none)
      (by intro t ht; simp at ht) (by simp)
    exact finalizeMaybe_invariant hash (msgs.foldl (parseStep hash) ([], none))
      g1 g2
  refine ⟨fun hash msgs => (key hash msgs).1,
          fun hash msgs => (key hash msgs).2, ?_, ?_⟩
  · intro hash pre u assts rest hu hutext hassts hrest
    unfold parse_session_into_turns
    rw [List.foldl_append, List.foldl_append]
    rw [List.foldl_cons, parseStep_user_eq hash _ u hu]
    rw [List.foldl_append]
    obtain ⟨cur', hfold, hcuser⟩ := foldl_assistant_run hash assts hassts
      (finalizeMaybe hash (pre.foldl (parseStep hash) ([], none)))
      (newPending u)
    rw [hfold]
    have hcur0 : cur'.user_message = "" := by
      rw [hcuser]
      exact hutext
    rcases hrest with rfl | ⟨v, rest2, rfl, hv⟩
    · rw [List.foldl_nil, List.foldl_nil]
      rw [finalizeMaybe_empty hash _ cur' hcur0]
    · rw [List.foldl_cons, List.foldl_cons,
        parseStep_user_eq hash _ v hv, parseStep_user_eq hash _ v hv,
        finalizeMaybe_empty hash _ cur' hcur0]
  · intro hash assts msgs hassts
    unfold parse_session_into_turns
    rw [List.foldl_append]
    have : assts.foldl (parseStep hash) ([], none) = ([], none) := by
      induction assts with
      | nil => rfl
      | cons a rest ih =>
        rw [List.foldl_cons,
          parseStep_assistant_none hash [] a (hassts a (List.mem_cons_self a rest))]
        exact ih (fun x hx => hassts x (List.mem_cons_of_mem a hx))
    rw [this]

/-- C4 counterexample: a successful session_process run that recorded no new
turn enqueues nothing at all — no child job for the turn still lacking a
summary and no session_summary job. -/
theorem session_fanout_counterexample :
    process_session_enqueues 0 ["t1"] "s1" = [] ∧
    ¬(({ kind := "session_summary", dedupe_key := "session_summary:s1",
         priority := 25 } : EnqueueReq) ∈
       process_session_enqueues 0 ["t1"] "s1") := by decide

/-- Shape of the per-turn fan-out list: its length and per-kind counts, and
the three enqueue calls present for every turn id. -/
theorem fanout_counts (tids : List String) :
    (tids.foldr (fun tid acc => turnChildJobs tid ++ acc) []).length =
        3 * tids.length ∧
    (tids.foldr (fun tid acc => turnChildJobs tid ++ acc) []).countP
        (fun r => r.kind == "turn_summary") = tids.length ∧
    (tids.foldr (fun tid acc => turnChildJobs tid ++ acc) []).countP
        (fun r => r.kind == "entity_extract") = tids.length ∧
    (tids.foldr (fun tid acc => turnChildJobs tid ++ acc) []).countP
        (fun r => r.kind == "artifact_extract") = tids.length ∧
    (tids.foldr (fun tid acc => turnChildJobs tid ++ acc) []).countP
        (fun r => r.kind == "session_summary") = 0 ∧
    (∀ tid ∈ tids,
      ({ kind := "turn_summary", dedupe_key := "turn_summary:" ++ tid,
         priority := 15 } : EnqueueReq) ∈
          tids.foldr (fun tid acc => turnChildJobs tid ++ acc) [] ∧
      ({ kind := "entity_extract", dedupe_key := "entity_extract:" ++ tid,
         priority := 20 } : EnqueueReq) ∈
          tids.foldr (fun tid acc => turnChildJobs tid ++ acc) [] ∧
      ({ kind := "artifact_extract", dedupe_key := "artifact_extract:" ++ tid,
         priority := 18 } : EnqueueReq) ∈
          tids.foldr (fun tid acc => turnChildJobs tid ++ acc) []) := by
  induction tids with
  | nil => simp
  | cons t rest ih =>
    obtain ⟨ihlen, ih1, ih2, ih3, ih4, ihmem⟩ := ih
    simp only [List.foldr_cons, List.length_append, List.countP_append,
      ihlen, ih1, ih2, ih3, ih4, List.length_cons]
    refine ⟨by simp [turnChildJobs]; ring,
      by simp [turnChildJobs, List.countP_cons]; try omega,
      by simp [turnChildJobs, List.countP_cons]; try omega,
      by simp [turnChildJobs, List.countP_cons]; try omega,
      by simp [turnChildJobs, List.countP_cons]; try omega, ?_⟩
    intro tid htid
    rcases List.mem_cons.mp htid with rfl | htid
    · exact ⟨by simp [turnChildJobs], by simp [turnChildJobs],
        by simp [turnChildJobs]⟩
    · obtain ⟨m1, m2, m3⟩ := ihmem tid htid
      exact ⟨List.mem_append_right _ m1, List.mem_append_right _ m2,
        List.mem_append_right _ m3⟩

/-- C4 amended: a successful session_process run that recorded at least one
new turn enqueues exactly one turn_summary, one entity_extract and one
artifact_extract job per turn of the session still lacking an assistant
summary, with dedup keys keyed by the turn id, and finally exactly one
session_summary job (the last enqueue); with no newly recorded turn it
enqueues nothing. -/
theorem session_fanout_spec (turn_ids : List String) (sid : String)
    (n : Nat) (hn : 0 < n) :
    (process_session_enqueues n turn_ids sid).length =
        3 * turn_ids.length + 1 ∧
    (process_session_enqueues n turn_ids sid).countP
        (fun r => r.kind == "turn_summary") = turn_ids.length ∧
    (process_session_enqueues n turn_ids sid).countP
        (fun r => r.kind == "entity_extract") = turn_ids.length ∧
    (process_session_enqueues n turn_ids sid).countP
        (fun r => r.kind == "artifact_extract") = turn_ids.length ∧
    (process_session_enqueues n turn_ids sid).countP
        (fun r => r.kind == "session_summary") = 1 ∧
    (∀ tid ∈ turn_ids,
      ({ kind := "turn_summary", dedupe_key := "turn_summary:" ++ tid,
         priority := 15 } : EnqueueReq) ∈
          process_session_enqueues n turn_ids sid ∧
      ({ kind := "entity_extract", dedupe_key := "entity_extract:" ++ tid,
         priority := 20 } : EnqueueReq) ∈
          process_session_enqueues n turn_ids sid ∧
      ({ kind := "artifact_extract", dedupe_key := "artifact_extract:" ++ tid,
         priority := 18 } : EnqueueReq) ∈
          process_session_enqueues n turn_ids sid) ∧
    (process_session_enqueues n turn_ids sid).getLast? =
      some { kind := "session_summary",
             dedupe_key := "session_summary:" ++ sid, priority := 25 } ∧
    process_session_enqueues 0 turn_ids sid = [] := by
  have hreq : process_session_enqueues n turn_ids sid =
      (turn_ids.foldr (fun tid acc => turnChildJobs tid ++ acc) []) ++
        [ { kind := "session_summary",
            dedupe_key := "session_summary:" ++ sid, priority := 25 } ] := by
    simp [process_session_enqueues, hn]
  obtain ⟨hlen, h1, h2, h3, h4, hmem⟩ := fanout_counts turn_ids
  rw [hreq]
  refine ⟨?_, ?_, ?_, ?_, ?_, ?_, ?_, ?_⟩
  · simp [hlen]
  · simp [List.countP_append, h1, List.countP_cons]
  · simp [List.countP_append, h2, List.countP_cons]
  · simp [List.countP_append, h3, List.countP_cons]
  · simp [List.countP_append, h4, List.countP_cons]
  · intro tid htid
    obtain ⟨m1, m2, m3⟩ := hmem tid htid
    exact ⟨List.mem_append_left _ m1, List.mem_append_left _ m2,
      List.mem_append_left _ m3⟩
  · exact List.getLast?_concat _
  · rfl

/-- C4 amended, witnessed on two turns: 7 enqueue calls, 2 of each child
kind, 1 session_summary issued last. -/
theorem session_fanout_spec_witness :
    0 < 2 ∧
    ((process_session_enqueues 2 ["a", "b"] "s").length = 3 * 2 + 1 ∧
      (process_session_enqueues 2 ["a", "b"] "s").countP
          (fun r => r.kind == "turn_summary") = 2 ∧
      (process_session_enqueues 2 ["a", "b"] "s").countP
          (fun r => r.kind == "entity_extract") = 2 ∧
      (process_session_enqueues 2 ["a", "b"] "s").countP
          (fun r => r.kind == "artifact_extract") = 2 ∧
      (process_session_enqueues 2 ["a", "b"] "s").countP
          (fun r => r.kind == "session_summary") = 1) := by
  have h := session_fanout_spec ["a", "b"] "s" 2 (by decide)
  exact ⟨by decide, by simpa using h.1, h.2.1, h.2.2.1, h.2.2.2.1,
    h.2.2.2.2.1⟩

/-! ## Classifier lemmas -/

/-- Bounds and the low-confidence characterization of _compute_confidence:
its value lies in [0, 1], and is at most 0.1 exactly when no floor applied. -/
theorem compute_confidence_spec (c : PromptClassification) :
    0 ≤ _compute_confidence c ∧ _compute_confidence c ≤ 1 ∧
    (_compute_confidence c ≤ 1/10 ↔
      (c.project_slugs = [] ∧ c.person_names = [] ∧
        optTruthy c.workspace_project = false ∧
        optTruthy c.explicit_project = false ∧ c.query_type = "general")) := by
  cases h1 : optTruthy c.explicit_project <;>
  cases h4 : optTruthy c.workspace_project <;>
  by_cases h2 : c.project_slugs = [] <;>
  by_cases h3 : c.person_names = [] <;>
  by_cases h5 : c.query_type = "general" <;>
    simp only [_compute_confidence, h1, h2, h3, h4, h5] <;>
    norm_num [max_def, h2, h3, h5]

/-- classify either takes the early return (prompt empty or shorter than 3
stripped chars) or ends by scoring the assembled classification. -/
theorem classify_shape (explicit : Option String)
    (extractPaths : String → List String)
    (projects : List (String × String)) (people : List String)
    (prompt : String) (cwd : Option String) :
    classify explicit extractPaths projects people prompt cwd =
        emptyClassification ∨
      ∃ c : PromptClassification,
        classify explicit extractPaths projects people prompt cwd =
          { c with confidence := _compute_confidence c } := by
  unfold classify
  split
  · left; rfl
  · right; exact ⟨_, rfl⟩

/-- C6 counterexample: on the prompt "hello there" (no entity lists, no cwd,
no explicit project) the classifier matches nothing, keeps query_type
general, and scores confidence exactly 0.1 — so confidence < 0.1 is false
while the right side of the claimed equivalence is true. -/
theorem classifier_confidence_counterexample :
    classify none (fun _ => []) [] [] "hello there" none =
      { emptyClassification with confidence := 1/10 } ∧
    ¬((classify none (fun _ => []) [] [] "hello there" none).confidence <
        1/10 ↔
      ((classify none (fun _ => []) [] [] "hello there" none).project_slugs =
          [] ∧
        (classify none (fun _ => []) [] [] "hello there" none).person_names =
          [] ∧
        optTruthy (classify none (fun _ => []) [] [] "hello there"
          none).workspace_project = false ∧
        optTruthy (classify none (fun _ => []) [] [] "hello there"
          none).explicit_project = false ∧
        (classify none (fun _ => []) [] [] "hello there" none).query_type =
          "general")) := by
  have h : classify none (fun _ => []) [] [] "hello there" none =
      { emptyClassification with confidence := 1/10 } := by rfl
  refine ⟨h, ?_⟩
  rw [h]
  norm_num [emptyClassification, optTruthy]

/-- C6 amended: for every prompt and cwd (and any entity lists, project
state and path extractor), the classifier confidence lies in [0, 1], and
confidence ≤ 0.1 holds exactly when no project slug matched, no person name
matched, no workspace project is set, no explicit project is set and
query_type is general. -/
theorem classifier_confidence_spec (explicit : Option String)
    (extractPaths : String → List String)
    (projects : List (String × String)) (people : List String)
    (prompt : String) (cwd : Option String) :
    0 ≤ (classify explicit extractPaths projects people prompt
        cwd).confidence ∧
    (classify explicit extractPaths projects people prompt cwd).confidence ≤
        1 ∧
    ((classify explicit extractPaths projects people prompt cwd).confidence ≤
        1/10 ↔
      ((classify explicit extractPaths projects people prompt
          cwd).project_slugs = [] ∧
        (classify explicit extractPaths projects people prompt
          cwd).person_names = [] ∧
        optTruthy (classify explicit extractPaths projects people prompt
          cwd).workspace_project = false ∧
        optTruthy (classify explicit extractPaths projects people prompt
          cwd).explicit_project = false ∧
        (classify explicit extractPaths projects people prompt
          cwd).query_type = "general")) := by
  rcases classify_shape explicit extractPaths projects people prompt cwd with
    heq | ⟨c, heq⟩
  · rw [heq]
    norm_num [emptyClassification, optTruthy]
  · rw [heq]
    exact compute_confidence_spec c

/-! ## Formatter lemmas -/

/-- Inserting a block splits the list: the blocks passed over are exactly a
prefix of strictly greater relevance, and the rest keeps its order. -/
theorem insertBlockDesc_split (b : ContextBlock) (l : List ContextBlock) :
    ∃ P S, insertBlockDesc b l = P ++ b :: S ∧ l = P ++ S ∧
      ∀ x ∈ P, b.relevance_score < x.relevance_score := by
  induction l with
  | nil => exact ⟨[], [], rfl, rfl, by simp⟩
  | cons x xs ih =>
    by_cases h : b.relevance_score < x.relevance_score
    · obtain ⟨P, S, h1, h2, h3⟩ := ih
      refine ⟨x :: P, S, ?_, ?_, ?_⟩
      · simp only [insertBlockDesc, if_pos h, h1, List.cons_append]
      · simp only [h2, List.cons_append]
      · intro y hy
        rcases List.mem_cons.mp hy with rfl | hy
        · exact h
        · exact h3 y hy
    · exact ⟨[], x :: xs, by simp [insertBlockDesc, if_neg h], rfl, by simp⟩

theorem insertBlockDesc_perm (b : ContextBlock) (l : List ContextBlock) :
    (insertBlockDesc b l).Perm (b :: l) := by
  obtain ⟨P, S, h1, h2, _⟩ := insertBlockDesc_split b l
  rw [h1, h2]
  exact List.perm_middle

theorem sortBlocksDesc_perm (bs : List ContextBlock) :
    (sortBlocksDesc bs).Perm bs := by
  induction bs with
  | nil => exact List.Perm.refl _
  | cons b rest ih =>
    exact (insertBlockDesc_perm b (sortBlocksDesc rest)).trans (ih.cons b)

theorem insertBlockDesc_pairwise (b : ContextBlock) (l : List ContextBlock)
    (h : l.Pairwise
      (fun a c => c.relevance_score ≤ a.relevance_score)) :
    (insertBlockDesc b l).Pairwise
      (fun a c => c.relevance_score ≤ a.relevance_score) := by
  induction l with
  | nil => simp [insertBlockDesc]
  | cons x xs ih =>
    rw [List.pairwise_cons] at h
    obtain ⟨hx, hxs⟩ := h
    by_cases hlt : b.relevance_score < x.relevance_score
    · simp only [insertBlockDesc, if_pos hlt]
      rw [List.pairwise_cons]
      refine ⟨?_, ih hxs⟩
      intro y hy
      have hy2 : y ∈ b :: xs := (insertBlockDesc_perm b xs).mem_iff.mp hy
      rcases List.mem_cons.mp hy2 with rfl | hy2
      · exact le_of_lt hlt
      · exact hx y hy2
    · simp only [insertBlockDesc, if_neg hlt]
      rw [List.pairwise_cons]
      refine ⟨?_, List.pairwise_cons.mpr ⟨hx, hxs⟩⟩
      intro y hy
      rcases List.mem_cons.mp hy with rfl | hy
      · exact not_lt.mp hlt
      · exact le_trans (hx y hy) (not_lt.mp hlt)

theorem sortBlocksDesc_pairwise (bs : List ContextBlock) :
    (sortBlocksDesc bs).Pairwise
      (fun a c => c.relevance_score ≤ a.relevance_score) := by
  induction bs with
  | nil => simp [sortBlocksDesc]
  | cons b rest ih => exact insertBlockDesc_pairwise b _ ih

/-- Insertion keeps the per-relevance sublists: blocks of the inserted
block exact relevance gain it in front, every other relevance class is
untouched. -/
theorem filter_insertBlockDesc (b : ContextBlock) (l : List ContextBlock)
    (r : ℚ) :
    (insertBlockDesc b l).filter (fun x => decide (x.relevance_score = r)) =
      if b.relevance_score = r then
        b :: l.filter (fun x => decide (x.relevance_score = r))
      else l.filter (fun x => decide (x.relevance_score = r)) := by
  obtain ⟨P, S, h1, h2, h3⟩ := insertBlockDesc_split b l
  rw [h1, h2]
  by_cases hbr : b.relevance_score = r
  · rw [if_pos hbr]
    have hP : P.filter (fun x => decide (x.relevance_score = r)) = [] := by
      rw [List.filter_eq_nil_iff]
      intro x hx
      have := h3 x hx
      simp only [decide_eq_true_eq]
      intro hxr
      rw [hbr, hxr] at this
      exact lt_irrefl r this
    rw [List.filter_append, List.filter_append, hP, List.filter_cons_of_pos]
    · simp
    · simpa using hbr
  · rw [if_neg hbr, List.filter_append, List.filter_append,
      List.filter_cons_of_neg]
    simpa using hbr

/-- Stability of sortBlocksDesc: within each relevance class the sorted list
keeps the input order, as Python sorted guarantees for ties. -/
theorem sortBlocksDesc_stable (bs : List ContextBlock) (r : ℚ) :
    (sortBlocksDesc bs).filter (fun x => decide (x.relevance_score = r)) =
      bs.filter (fun x => decide (x.relevance_score = r)) := by
  induction bs with
  | nil => rfl
  | cons b rest ih =>
    show (insertBlockDesc b (sortBlocksDesc rest)).filter
        (fun x => decide (x.relevance_score = r)) = _
    rw [filter_insertBlockDesc]
    by_cases hbr : b.relevance_score = r
    · rw [if_pos hbr, ih, List.filter_cons_of_pos]
      simpa using hbr
    · rw [if_neg hbr, ih, List.filter_cons_of_neg]
      simpa using hbr

/-- The tail-accumulating loop of the formatter computes the same inclusion
and the same dropped count as the standalone greedy selection. -/
theorem formatLoop_eq_greedy (bs : List ContextBlock) :
    ∀ (parts : List String) (ovf : Nat) (rem : Int),
      (formatLoop bs parts ovf rem).1 =
          parts ++ (greedySelect bs rem).1.map _format_single_block ∧
        (formatLoop bs parts ovf rem).2.1 = ovf + (greedySelect bs rem).2 := by
  induction bs with
  | nil => intro parts ovf rem; simp [formatLoop, greedySelect]
  | cons b rest ih =>
    intro parts ovf rem
    by_cases h : (_estimate_tokens (_format_single_block b) : Int) ≤ rem
    · simp only [formatLoop, greedySelect, if_pos h]
      obtain ⟨e1, e2⟩ := ih (parts ++ [_format_single_block b]) ovf
        (rem - (_estimate_tokens (_format_single_block b) : Int))
      rw [e1, e2]
      simp
    · simp only [formatLoop, greedySelect, if_neg h]
      obtain ⟨e1, e2⟩ := ih parts (ovf + 1) rem
      rw [e1, e2]
      constructor
      · rfl
      · omega

/-- C7 counterexample: with a 100-char block of relevance 0.9 and a short
block of relevance 0.5 under a budget of 20 tokens, the code skips the big
block yet still includes the later small one and reports one drop with the
suffix as spelled in the source, while the claimed stop-at-exhaustion
formatter (with the claimed suffix) returns the empty string. -/
theorem format_blocks_counterexample :
    format_context_blocks [blockBigEx, blockSmallEx] 20 =
      "## Focus Context\n\n[Task] hi" ++ overflowNote 1 ∧
    format_context_blocks_claim [blockBigEx, blockSmallEx] 20 = "" ∧
    format_context_blocks [blockBigEx, blockSmallEx] 20 ≠
      format_context_blocks_claim [blockBigEx, blockSmallEx] 20 := by
  have h1 : format_context_blocks [blockBigEx, blockSmallEx] 20 =
      "## Focus Context\n\n[Task] hi" ++ overflowNote 1 := by rfl
  have h2 : format_context_blocks_claim [blockBigEx, blockSmallEx] 20 = "" :=
    by rfl
  refine ⟨h1, h2, ?_⟩
  rw [h1, h2]
  decide

/-- C7 amended: the formatter sorts blocks stably by relevance descending
(the sorted list is a descending permutation of the input whose relevance
classes each keep the input order) and charges the header, then charges each
block max(1, len(formatted) // 4) tokens, skipping any block that does not
fit while still considering later blocks; a positive number n of skipped
blocks appends the overflow note with n exactly as the source spells it
(backtick quotes); when no block fits the result is the empty string. -/
theorem format_blocks_spec :
    (∀ (blocks : List ContextBlock) (max_tokens : Int),
      format_context_blocks blocks max_tokens =
        format_context_blocks_amended blocks max_tokens) ∧
    (∀ blocks : List ContextBlock,
      (sortBlocksDesc blocks).Pairwise
        (fun a c => c.relevance_score ≤ a.relevance_score) ∧
      (sortBlocksDesc blocks).Perm blocks ∧
      ∀ r : ℚ,
        (sortBlocksDesc blocks).filter
            (fun x => decide (x.relevance_score = r)) =
          blocks.filter (fun x => decide (x.relevance_score = r))) := by
  constructor
  · intro blocks max_tokens
    unfold format_context_blocks format_context_blocks_amended
    by_cases hb : blocks.isEmpty
    · simp only [if_pos hb]
    · simp only [if_neg hb]
      obtain ⟨e1, e2⟩ := formatLoop_eq_greedy (sortBlocksDesc blocks) [] 0
        (max_tokens - (_estimate_tokens "## Focus Context\n\n" : Int))
      rw [e1, e2]
      by_cases hsel : (greedySelect (sortBlocksDesc blocks)
          (max_tokens -
            (_estimate_tokens "## Focus Context\n\n" : Int))).1 = []
      · simp [hsel]
      · simp only [List.nil_append, Nat.zero_add]
        have hmap : ¬(((greedySelect (sortBlocksDesc blocks)
            (max_tokens -
              (_estimate_tokens "## Focus Context\n\n" : Int))).1.map
                _format_single_block).isEmpty = true) := by
          simp [hsel]
        have hne2 : ¬((greedySelect (sortBlocksDesc blocks)
            (max_tokens -
              (_estimate_tokens "## Focus Context\n\n" : Int))).1.isEmpty =
                true) := by
          simp [hsel]
        rw [if_neg hmap, if_neg hne2]
  · intro blocks
    exact ⟨sortBlocksDesc_pairwise blocks, sortBlocksDesc_perm blocks,
      sortBlocksDesc_stable blocks⟩

/-! ## String slicing lemmas -/

theorem length_pyTake (n : Nat) (s : String) :
    (pyTake n s).length = min n s.length := by
  cases s with
  | mk l => simp [pyTake, String.length]

theorem pyTake_pyTake (m n : Nat) (s : String) :
    pyTake m (pyTake n s) = pyTake (min m n) s := by
  cases s with
  | mk l => simp [pyTake, List.take_take]

theorem pyTake_eq_empty_iff (n : Nat) (s : String) (hn : 0 < n) :
    (pyTake n s = "") ↔ (s = "") := by
  cases s with
  | mk l =>
    constructor
    · intro h
      have hd : l.take n = [] := congrArg String.data h
      rcases List.take_eq_nil_iff.mp hd with h0 | h0
      · omega
      · exact congrArg String.mk h0
    · intro h
      have hd : l = [] := congrArg String.data h
      subst hd
      rw [← h]
      simp [pyTake]

/-! ## turn_summary lemmas -/

/-- On an argument already capped at 200 chars, _llm_summarize_turn sends
exactly that argument (its 1000-char cap never binds) and fills empty parsed
fields from truncations of the original message. -/
theorem llm_summarize_take (api_key : Bool) (llm : String → Option String)
    (msg : String) :
    _llm_summarize_turn api_key llm (pyTake 200 msg) =
      match (if api_key then llm (pyTake 200 msg) else none) with
      | none => none
      | some text =>
        some ((if (parseSummaryLines text).1 == "" then pyTake 80 msg
               else (parseSummaryLines text).1),
              (if (parseSummaryLines text).2 == "" then pyTake 200 msg
               else (parseSummaryLines text).2)) := by
  cases api_key with
  | false => simp [_llm_summarize_turn]
  | true =>
    simp only [_llm_summarize_turn, Bool.not_true, Bool.false_eq_true,
      if_false, if_true]
    rw [pyTake_pyTake]
    norm_num
    cases llm (pyTake 200 msg) with
    | none => rfl
    | some text =>
      simp only []
      rw [pyTake_pyTake, pyTake_pyTake]
      norm_num

/-- C8 counterexample: on a 300-char user message, with a summarizer that
echoes the text it received as the SUMMARY line, the handler stores a
200-char summary — the summarizer saw only the first 200 chars of the
message, not the first 1000 as claimed — while the handler as the claim
words it would store all 300 chars. -/
theorem turn_summary_counterexample :
    (process_turn_summary_job true llmEcho turnRowEx).assistant_summary =
      some (String.mk (List.replicate 200 'a')) ∧
    (process_turn_summary_claim true llmEcho turnRowEx).assistant_summary =
      some msg300 ∧
    process_turn_summary_job true llmEcho turnRowEx ≠
      process_turn_summary_claim true llmEcho turnRowEx := by
  have h1 : (process_turn_summary_job true llmEcho turnRowEx).assistant_summary
      = some (String.mk (List.replicate 200 'a')) := by rfl
  have h2 :
      (process_turn_summary_claim true llmEcho turnRowEx).assistant_summary =
        some msg300 := by rfl
  refine ⟨h1, h2, ?_⟩
  intro heq
  have h3 := congrArg AgentTurnRow.assistant_summary heq
  rw [h1, h2] at h3
  have : String.mk (List.replicate 200 'a') = msg300 := Option.some.inj h3
  have hlen := congrArg String.length this
  simp [msg300, String.length] at hlen

/-- C8 amended: the handler is a no-op on an already summarized turn;
otherwise it works on the stored user message truncated to 200 chars — under
50 chars it sets the summary to that message and the title to its first 80
chars (title Short exchange for an empty message), otherwise it calls the
summarizer with the first 200 chars of the message (the 1000-char cap never
binds), falling back to the 80/200-char truncations on any summarizer
failure. The handler is a total function of the turn row: it never
raises. -/
theorem turn_summary_amended (api_key : Bool) (llm : String → Option String)
    (turn : AgentTurnRow) :
    process_turn_summary_job api_key llm turn =
      process_turn_summary_amended api_key llm turn := by
  cases hsum : optTruthy turn.assistant_summary with
  | true => simp [process_turn_summary_job, process_turn_summary_amended, hsum]
  | false =>
    simp only [process_turn_summary_job, process_turn_summary_amended, hsum,
      Bool.false_eq_true, if_false]
    by_cases hlen : (turn.user_message.getD "").length < 50
    · have hlen2 : (pyTake 200 (turn.user_message.getD "")).length < 50 := by
        rw [length_pyTake]
        omega
      rw [if_pos hlen2, if_pos hlen]
      have htitle :
          (if (pyTake 200 (turn.user_message.getD "")) != "" then
            pyTake 80 (pyTake 200 (turn.user_message.getD ""))
          else "Short exchange") =
            (if (turn.user_message.getD "") == "" then "Short exchange"
             else pyTake 80 (turn.user_message.getD "")) := by
        by_cases hemp : turn.user_message.getD "" = ""
        · have hte : pyTake 200 ("" : String) = "" :=
            (pyTake_eq_empty_iff 200 "" (by norm_num)).mpr rfl
          simp [hemp, hte]
        · have hte : pyTake 200 (turn.user_message.getD "") ≠ "" := fun hc =>
            hemp ((pyTake_eq_empty_iff 200 _ (by norm_num)).mp hc)
          rw [pyTake_pyTake]
          simp [hemp, hte]
      rw [htitle]
    · have hlen2 : ¬((pyTake 200 (turn.user_message.getD "")).length < 50) := by
        rw [length_pyTake]
        omega
      rw [if_neg hlen2, if_neg hlen, llm_summarize_take]
      cases hres : (if api_key then
          llm (pyTake 200 (turn.user_message.getD "")) else none) with
      | none =>
        rw [pyTake_pyTake, pyTake_pyTake]
        norm_num
      | some text => rfl

/-- C9 counterexample: a 501-char Bash command is appended to commands_run
untruncated — the 500-char truncation applies only to the artifact value —
so commands_run does not hold the truncated command. -/
theorem bash_command_counterexample :
    (_process_tool_use bashBlockEx emptyTurnArtifacts).commands_run =
      [cmd501] ∧
    (_process_tool_use bashBlockEx
        emptyTurnArtifacts).artifacts.map Artifact.artifact_value =
      [pyTake 500 cmd501] ∧
    (_process_tool_use bashBlockEx emptyTurnArtifacts).commands_run ≠
      [pyTake 500 cmd501] := by
  have h1 : (_process_tool_use bashBlockEx emptyTurnArtifacts).commands_run =
      [cmd501] := by rfl
  have h2 : (_process_tool_use bashBlockEx
      emptyTurnArtifacts).artifacts.map Artifact.artifact_value =
        [pyTake 500 cmd501] := by rfl
  refine ⟨h1, h2, ?_⟩
  rw [h1]
  intro hc
  have hlen := congrArg (fun l => (l.map String.length)) hc
  simp only [List.map_cons, List.map_nil] at hlen
  have : cmd501.length = (pyTake 500 cmd501).length := by
    exact List.cons.inj (hlen) |>.1
  rw [length_pyTake] at this
  simp [cmd501, String.length] at this

/-- C9 amended: for every tool_use block with name Bash carrying a non-empty
command, the full command is appended to commands_run, the tool call is
counted, and one command artifact is emitted whose value is the command
truncated to 500 chars. -/
theorem bash_command_spec (block : ToolUseBlock) (result : TurnArtifacts)
    (hname : block.name = "Bash")
    (hcmd : dictGet block.input "command" ≠ "") :
    _process_tool_use block result =
      { result with
        tool_call_count := result.tool_call_count + 1
        commands_run := result.commands_run ++ [dictGet block.input "command"]
        artifacts := result.artifacts ++
          [⟨"command", pyTake 500 (dictGet block.input "command"),
            [("tool", MetaVal.s "Bash")]⟩] } := by
  simp [_process_tool_use, hname, hcmd]

/-- C9 amended, witnessed on a short concrete command: the command lands in
commands_run as is and the artifact carries its (here identical)
truncation. -/
theorem bash_command_spec_witness :
    bashBlockEx2.name = "Bash" ∧
    dictGet bashBlockEx2.input "command" ≠ "" ∧
    _process_tool_use bashBlockEx2 emptyTurnArtifacts =
      { emptyTurnArtifacts with
        tool_call_count := emptyTurnArtifacts.tool_call_count + 1
        commands_run := emptyTurnArtifacts.commands_run ++
          [dictGet bashBlockEx2.input "command"]
        artifacts := emptyTurnArtifacts.artifacts ++
          [⟨"command", pyTake 500 (dictGet bashBlockEx2.input "command"),
            [("tool", MetaVal.s "Bash")]⟩] } :=
  ⟨rfl, by decide,
    bash_command_spec bashBlockEx2 emptyTurnArtifacts rfl (by decide)⟩
